import Mathlib

/-!
Verification of the tolerant tabular data-loading and normalization pipeline
of the Sales-Dashboard repository.

Strings are modelled as `List Char`; JS numbers are modelled as `ℚ`
(exact rational arithmetic in place of IEEE doubles); JS `undefined` for
object lookups is modelled with `Option`.  Each definition is a direct
translation of the corresponding TypeScript function, named after it.
-/

namespace SalesDashboard

/-- JS whitespace (the characters relevant to `String.trim` and the regex
class `\s` for the inputs this code handles): space, tab, LF, VT, FF, CR,
NBSP and the BOM/zero-width-no-break-space U+FEFF (which JS also treats as
whitespace). -/
def isWS (c : Char) : Bool :=
  c = ' ' || c = '\t' || c = '\n' || c = '\x0b' || c = '\x0c' || c = '\r' ||
  c = '\u00A0' || c = '\uFEFF'

/-- The character class `[\s_]` used by `normalizeHeader`. -/
def isWSU (c : Char) : Bool := isWS c || c = '_'

/-- JS `String.prototype.trim`. -/
def jsTrim (l : List Char) : List Char :=
  ((l.dropWhile isWS).reverse.dropWhile isWS).reverse

/-- JS `s.replace(/^"|"$/g, '')`: removes one leading double quote if
present, then one trailing double quote from what remains. -/
def stripLeadQuote : List Char → List Char
  | '"' :: r => r
  | r => r

def stripWrapQuotes (l : List Char) : List Char :=
  if (stripLeadQuote l).getLast? = some '"' then (stripLeadQuote l).dropLast
  else stripLeadQuote l

/-- JS `s.replace(/^﻿/, '')`: removes one leading U+FEFF. -/
def stripLeadBOM (l : List Char) : List Char :=
  match l with
  | '\uFEFF' :: r => r
  | r => r

/-- `pre` is a prefix of `s` (JS `s.startsWith(pre)`). -/
def startsWithL : List Char → List Char → Bool
  | [], _ => true
  | _ :: _, [] => false
  | p :: ps, c :: cs => p = c && startsWithL ps cs

/-- `needle` occurs as a contiguous substring of `hay` (JS `s.includes(needle)`). -/
def containsL (needle : List Char) : List Char → Bool
  | [] => startsWithL needle []
  | c :: cs => startsWithL needle (c :: cs) || containsL needle cs

/-! ### Keyed collections

JS objects (`row[k] = v`) and JS `Map`s (`m.set(k, v)`) both keep
first-insertion order and update an existing key in place; we model both as
association lists with in-place update. -/

/-- JS property/`Map` write: update the entry for `k` in place, or append. -/
def objSet {α : Type} : List (List Char × α) → List Char → α → List (List Char × α)
  | [], k, v => [(k, v)]
  | (k', v') :: t, k, v =>
    if k' = k then (k, v) :: t else (k', v') :: objSet t k v

/-- JS property/`Map` read (`none` = `undefined`). -/
def objGet? {α : Type} : List (List Char × α) → List Char → Option α
  | [], _ => none
  | (k', v') :: t, k => if k' = k then some v' else objGet? t k

/-! ### JS numeric primitives -/

/-- Numeric value of a digit string (most significant first). -/
def digitsNat (l : List Char) : Nat :=
  l.foldl (fun a c => a * 10 + (c.toNat - 48)) 0

/-- JS `parseFloat`: skip leading whitespace, optional sign, integer digits,
optional `.` + fraction digits, optional exponent; `none` models `NaN`
(no digits at all).  Trailing unparseable characters are ignored, as is an
exponent marker not followed by digits. -/
def jsParseFloat (s : List Char) : Option ℚ :=
  let s1 := s.dropWhile isWS
  let (neg, s2) :=
    match s1 with
    | '-' :: r => (true, r)
    | '+' :: r => (false, r)
    | r => (false, r)
  let ip := s2.takeWhile Char.isDigit
  let s3 := s2.dropWhile Char.isDigit
  let (fp, s4) :=
    match s3 with
    | '.' :: r => (r.takeWhile Char.isDigit, r.dropWhile Char.isDigit)
    | _ => ([], s3)
  if ip.isEmpty && fp.isEmpty then none
  else
    let mant : ℚ := (digitsNat ip : ℚ) + (digitsNat fp : ℚ) / ((10 : ℚ) ^ fp.length)
    let v0 : ℚ := if neg then -mant else mant
    match s4 with
    | 'e' :: r | 'E' :: r =>
      let (eneg, r1) :=
        match r with
        | '-' :: r' => (true, r')
        | '+' :: r' => (false, r')
        | r' => (false, r')
      let ed := r1.takeWhile Char.isDigit
      if ed.isEmpty then some v0
      else if eneg then some (v0 / (10 : ℚ) ^ digitsNat ed)
      else some (v0 * (10 : ℚ) ^ digitsNat ed)
    | _ => some v0

namespace GSL
/-! Translation of `src/data/googleSheetsLoader.ts`. -/

/-- `normalizeHeader`: trim, strip a wrapping quote pair, lowercase,
remove all whitespace/underscore runs (`.replace(/[\s_]+/g, '')`). -/
def normalizeHeader (h : List Char) : List Char :=
  ((stripWrapQuotes (jsTrim h)).map Char.toLower).filter (fun c => !(isWSU c))

/-- The inner `while` of `parseCSVLine`'s quoted-field branch: consume until
the closing quote, turning an escaped `""` into one literal quote.  Returns
the accumulated field value and the unconsumed remainder of the line
(starting right after the closing quote, or `[]` if the quote was never
closed). -/
def parseQuoted : List Char → List Char → List Char × List Char
  | [], val => (val, [])
  | '"' :: rest, val =>
    match rest with
    | '"' :: rest' => parseQuoted rest' (val ++ ['"'])
    | _ => (val, rest)
  | c :: rest, val => parseQuoted rest (val ++ [c])

/-- The inner `while` of `parseCSVLine`'s unquoted-field branch: consume up
to (excluding) the next comma or the end of the line. -/
def scanUnquoted : List Char → List Char → List Char × List Char
  | [], val => (val, [])
  | c :: rest, val =>
    if c = ',' then (val, c :: rest) else scanUnquoted rest (val ++ [c])

/-- `if (i < line.length && line[i] === ',') i += 1` — skip one delimiter. -/
def skipComma : List Char → List Char
  | ',' :: r => r
  | r => r

/-- `val.trim().replace(/^"|"$/g, '')` as applied to unquoted field values
(and again to every cell by `parseCSV`). -/
def cleanCell (v : List Char) : List Char := stripWrapQuotes (jsTrim v)

theorem parseQuoted_snd_length_le (l val : List Char) :
    (parseQuoted l val).2.length ≤ l.length := by
  induction l, val using parseQuoted.induct with
  | _ =>
    simp_all only [parseQuoted, List.length_cons, List.length_nil]
    omega

theorem scanUnquoted_snd_length_le (l val : List Char) :
    (scanUnquoted l val).2.length ≤ l.length := by
  induction l generalizing val with
  | nil => simp [scanUnquoted]
  | cons c rest ih =>
    simp only [scanUnquoted]
    split
    · simp
    · have := ih (val ++ [c])
      simp only [List.length_cons]
      omega

theorem skipComma_length_le (l : List Char) : (skipComma l).length ≤ l.length := by
  cases l with
  | nil => simp [skipComma]
  | cons c r =>
    by_cases hc : c = ','
    · subst hc; simp [skipComma]
    · have : skipComma (c :: r) = c :: r := by
        unfold skipComma
        split
        · next heq =>
          rw [List.cons.injEq] at heq
          exact absurd heq.1 hc
        · rfl
      simp [this]

theorem scan_skip_length_lt (c : Char) (rest : List Char) :
    (skipComma (scanUnquoted (c :: rest) []).2).length < (c :: rest).length := by
  by_cases hc : c = ','
  · subst hc
    simp [scanUnquoted, skipComma]
  · have h1 : scanUnquoted (c :: rest) [] = scanUnquoted rest [c] := by
      simp [scanUnquoted, hc]
    have h2 := scanUnquoted_snd_length_le rest [c]
    have h3 := skipComma_length_le (scanUnquoted rest [c]).2
    simp only [h1, List.length_cons]
    omega

/-- The outer `while (i <= line.length)` loop of `parseCSVLine`.
`ec` records whether the last character of the *original* line is a comma
(the loop re-reads `line[line.length - 1]` at its end-of-line check);
`rem` is the unconsumed remainder, `out` the fields pushed so far.
Recursion is driven structurally by `fuel`; every iteration consumes at
least one character of `rem`, so any `fuel > rem.length` reaches the
loop's own exit (see `parseLineAux_fuel_eq` below) and the `fuel = 0` arm
is inert. -/
def parseLineAux (ec : Bool) : Nat → List Char → List (List Char) →
    List (List Char)
  | 0, _, out => out
  | _ + 1, [], out => if out.isEmpty || ec then out ++ [[]] else out
  | fuel + 1, c :: rest, out =>
    if c = '"' then
      parseLineAux ec fuel (skipComma (parseQuoted rest []).2)
        (out ++ [jsTrim (parseQuoted rest []).1])
    else
      parseLineAux ec fuel (skipComma (scanUnquoted (c :: rest) []).2)
        (out ++ [cleanCell (scanUnquoted (c :: rest) []).1])

/-- The result of `parseLineAux` does not depend on the fuel once the fuel
exceeds the remaining length. -/
theorem parseLineAux_fuel_eq (ec : Bool) :
    ∀ (fuel₁ fuel₂ : Nat) (rem : List Char) (out : List (List Char)),
      rem.length < fuel₁ → rem.length < fuel₂ →
      parseLineAux ec fuel₁ rem out = parseLineAux ec fuel₂ rem out := by
  intro fuel₁
  induction fuel₁ with
  | zero => intro fuel₂ rem out h1; omega
  | succ f ih =>
    intro fuel₂ rem out h1 h2
    cases fuel₂ with
    | zero => omega
    | succ f₂ =>
      cases rem with
      | nil => rfl
      | cons c rest =>
        simp only [parseLineAux]
        by_cases hc : c = '"'
        · rw [if_pos hc, if_pos hc]
          apply ih
          · have ha := parseQuoted_snd_length_le rest []
            have hb := skipComma_length_le (parseQuoted rest []).2
            simp only [List.length_cons] at h1
            omega
          · have ha := parseQuoted_snd_length_le rest []
            have hb := skipComma_length_le (parseQuoted rest []).2
            simp only [List.length_cons] at h2
            omega
        · rw [if_neg hc, if_neg hc]
          apply ih
          · have := scan_skip_length_lt c rest
            simp only [List.length_cons] at h1 this ⊢
            omega
          · have := scan_skip_length_lt c rest
            simp only [List.length_cons] at h2 this ⊢
            omega

/-- `parseCSVLine` from `googleSheetsLoader.ts` (lines 42–96). -/
def parseCSVLine (line : List Char) : List (List Char) :=
  parseLineAux (line.getLast? == some ',') (line.length + 1) line []

/-- A row record: JS object from header key to cell value. -/
abbrev Row := List (List Char × List Char)

/-- Split a blob into lines on `/\r?\n/`: split at every LF, then drop one
carriage return left at the end of a piece. -/
def splitNewlines (l : List Char) : List (List Char) :=
  (l.splitOn '\n').map fun p => if p.getLast? = some '\r' then p.dropLast else p

/-- `csv.trim().replace(/^﻿/, '').split(/\r?\n/).filter((l) => l.length > 0)`
from `parseCSV` line 99. -/
def csvLines (csv : List Char) : List (List Char) :=
  (splitNewlines (stripLeadBOM (jsTrim csv))).filter (fun l => !l.isEmpty)

/-- `normalizeHeader(h.replace(/^﻿/, '')) || h` — the header key mapping
of `parseCSV` line 102 (fall back to the parsed header field when the
normalized form is empty). -/
def headerKey (h : List Char) : List Char :=
  let n := normalizeHeader (stripLeadBOM h)
  if n.isEmpty then h else n

/-- The `normalizedValues` padding/truncation loop of `parseCSV`
(lines 111–114): index `j` ranges over `0 ≤ j < expectedColumnCount` and
each entry is `(values[j] ?? '').trim().replace(/^"|"$/g, '')`. -/
def normalizedValues (n : Nat) (values : List (List Char)) : List (List Char) :=
  (List.range n).map fun j => cleanCell (values.getD j [])

/-- The `headers.forEach((h, j) => { row[h] = normalizedValues[j] ?? '' })`
loop of `parseCSV` (lines 116–119), with `j` threaded explicitly. -/
def buildRowGo (nv : List (List Char)) (row : Row) (j : Nat) :
    List (List Char) → Row
  | [] => row
  | h :: hs => buildRowGo nv (objSet row h (nv.getD j [])) (j + 1) hs

def buildRow (headers nv : List (List Char)) : Row :=
  buildRowGo nv [] 0 headers

/-- The header keys of a blob, as computed by `parseCSV` from its first
non-blank line (empty when the blob has fewer than 2 non-blank lines). -/
def headersOf (csv : List Char) : List (List Char) :=
  match csvLines csv with
  | l0 :: _ :: _ => (parseCSVLine l0).map headerKey
  | _ => []

/-- The data lines of a blob (all non-blank lines after the header line; empty
when the blob has fewer than 2 non-blank lines). -/
def dataLinesOf (csv : List Char) : List (List Char) :=
  match csvLines csv with
  | _ :: l1 :: rest => l1 :: rest
  | _ => []

/-- `parseCSV` from `googleSheetsLoader.ts` (lines 98–123). -/
def parseCSV (csv : List Char) : List Row :=
  match csvLines csv with
  | l0 :: l1 :: rest =>
    let headers := (parseCSVLine l0).map headerKey
    (l1 :: rest).map fun line =>
      buildRow headers (normalizedValues headers.length (parseCSVLine line))
  | _ => []

/-! ### Number coercion -/

/-- `num` from `googleSheetsLoader.ts` (lines 125–128):
`parseFloat(String(v).replace(/[^0-9.-]/g, ''))`, with `NaN ↦ 0`.
(`String(undefined) = "undefined"` also strips to `""` and coerces to 0,
so the model's empty string covers the `undefined` case.) -/
def num (v : List Char) : ℚ :=
  (jsParseFloat (v.filter fun c => c.isDigit || c = '.' || c = '-')).getD 0

/-- `bool` from `googleSheetsLoader.ts` (lines 130–133). -/
def jsBool (v : List Char) : Bool :=
  let s := v.map Char.toLower
  s = "true".toList || s = "1".toList || s = "yes".toList || s = "x".toList

/-- `cell` from `googleSheetsLoader.ts` (lines 136–139):
`row[normalizeHeader(key)] ?? row[key] ?? ''`. -/
def cell (row : Row) (key : List Char) : List Char :=
  match objGet? row (normalizeHeader key) with
  | some v => v
  | none => (objGet? row key).getD []

/-- The pervasive field pattern `String((cell(r, k) || r[k]) ?? ''))`:
use `cell` unless it is the (falsy) empty string, then fall back to the
raw property, then to the empty string. -/
def cellOr (row : Row) (key : List Char) : List Char :=
  let a := cell row key
  if a.isEmpty then (objGet? row key).getD [] else a

end GSL

namespace GSLB
/-! Translation of the `parseCSVLine` variant in the unnamed loader file
(`src/unnamed/part_000`, lines 42–73).  Its outer loop runs only while
`i < line.length`, has no end-of-line empty-field handling, does not skip
a delimiter after a quoted field, and advances `i` unconditionally after an
unquoted field.  Its quoted-field inner loop reads `line[i]` without a
bounds check, but `undefined ≠ '"'` so the semantics coincide with the
bounds-checked variant, and its unquoted scan is identical. -/

/-- The quoted-field inner `while` of the variant parser. -/
def parseQuoted : List Char → List Char → List Char × List Char
  | [], val => (val, [])
  | '"' :: rest, val =>
    match rest with
    | '"' :: rest' => parseQuoted rest' (val ++ ['"'])
    | _ => (val, rest)
  | c :: rest, val => parseQuoted rest (val ++ [c])

theorem variant_parseQuoted_snd_length_le (l val : List Char) :
    (parseQuoted l val).2.length ≤ l.length := by
  induction l, val using parseQuoted.induct with
  | _ =>
    simp_all only [parseQuoted, List.length_cons, List.length_nil]
    omega

/-- The remainder left for the next iteration after an unquoted field in
the variant parser: the scan stops at a comma or the line end, and the
unconditional `i += 1` then steps over at most that one comma. -/
def dropOne (l : List Char) : List Char := l.drop 1

theorem variant_unquoted_length_lt (c : Char) (rest : List Char) :
    (dropOne (GSL.scanUnquoted (c :: rest) []).2).length < (c :: rest).length := by
  by_cases hc : c = ','
  · subst hc
    have h2 : GSL.scanUnquoted (',' :: rest) ([] : List Char) = ([], ',' :: rest) := by
      simp [GSL.scanUnquoted]
    rw [h2]
    simp [dropOne]
  · have h2 : GSL.scanUnquoted (c :: rest) [] = GSL.scanUnquoted rest [c] := by
      simp [GSL.scanUnquoted, hc]
    have h3 := GSL.scanUnquoted_snd_length_le rest [c]
    have h4 : (dropOne (GSL.scanUnquoted rest [c]).2).length ≤
        (GSL.scanUnquoted rest [c]).2.length := by
      simp [dropOne]
    simp only [h2, List.length_cons]
    omega

/-- The outer `while (i < line.length)` loop of the variant parser, with the
same fuel discipline as `GSL.parseLineAux`. -/
def parseLineAux : Nat → List Char → List (List Char) → List (List Char)
  | 0, _, out => out
  | _ + 1, [], out => out
  | fuel + 1, c :: rest, out =>
    if c = '"' then
      parseLineAux fuel (parseQuoted rest []).2
        (out ++ [jsTrim (parseQuoted rest []).1])
    else
      parseLineAux fuel (dropOne (GSL.scanUnquoted (c :: rest) []).2)
        (out ++ [GSL.cleanCell (GSL.scanUnquoted (c :: rest) []).1])

/-- Fuel irrelevance for the variant parser. -/
theorem variant_parseLineAux_fuel_eq :
    ∀ (fuel₁ fuel₂ : Nat) (rem : List Char) (out : List (List Char)),
      rem.length < fuel₁ → rem.length < fuel₂ →
      parseLineAux fuel₁ rem out = parseLineAux fuel₂ rem out := by
  intro fuel₁
  induction fuel₁ with
  | zero => intro fuel₂ rem out h1; omega
  | succ f ih =>
    intro fuel₂ rem out h1 h2
    cases fuel₂ with
    | zero => omega
    | succ f₂ =>
      cases rem with
      | nil => rfl
      | cons c rest =>
        simp only [parseLineAux]
        by_cases hc : c = '"'
        · rw [if_pos hc, if_pos hc]
          apply ih
          · have ha := variant_parseQuoted_snd_length_le rest []
            simp only [List.length_cons] at h1
            omega
          · have ha := variant_parseQuoted_snd_length_le rest []
            simp only [List.length_cons] at h2
            omega
        · rw [if_neg hc, if_neg hc]
          apply ih
          · have := variant_unquoted_length_lt c rest
            simp only [List.length_cons] at h1 this ⊢
            omega
          · have := variant_unquoted_length_lt c rest
            simp only [List.length_cons] at h2 this ⊢
            omega

/-- `parseCSVLine` from the unnamed loader variant. -/
def parseCSVLine (line : List Char) : List (List Char) :=
  parseLineAux (line.length + 1) line []

end GSLB

namespace CSVSpec
/-! Modelled from the spec: serialization with "the same delimiter and
quoting rules" as the Row Parser contract (§4.1 / §8): fields joined by
commas, each field wrapped in double quotes, a literal quote written as a
doubled quote.  No serializer exists in the source; this definition follows
the spec's words and is only used to state the round-trip law. -/

/-- Double every quote character of a field value. -/
def escapeQuotes : List Char → List Char
  | [] => []
  | c :: r => if c = '"' then '"' :: '"' :: escapeQuotes r else c :: escapeQuotes r

/-- Wrap an escaped field value in double quotes. -/
def serializeField (f : List Char) : List Char :=
  '"' :: (escapeQuotes f ++ ['"'])

/-- Join serialized fields with the comma delimiter. -/
def serializeLine : List (List Char) → List Char
  | [] => []
  | [f] => serializeField f
  | f :: rest => serializeField f ++ ',' :: serializeLine rest

end CSVSpec

namespace GSL
/-! ### The table-set loader (`googleSheetsLoader.ts` lines 210–347)

`fetch` is modelled by an environment giving, per sheet name, whether the
HTTP response is ok, its status text, and its body; `Promise.all` over the
23 concurrently-started fetches is modelled by sequencing them in array
order, a rejection of any entry rejecting the whole load (deterministically
with the earliest entry in array order). -/

/-- `googleSheetsConfig`: the spreadsheet id and the `sheetGids` record. -/
structure SheetsConfig where
  spreadsheetId : List Char
  sheetGids : List Char → Option (List Char)

/-- The outcome of `fetch` for each sheet name. -/
structure FetchEnv where
  fetchOk : List Char → Bool
  fetchStatusText : List Char → List Char
  fetchText : List Char → List Char

/-- JS falsiness of `googleSheetsConfig.sheetGids[name]`:
`undefined` or the empty string. -/
def falsyGid (cfg : SheetsConfig) (name : List Char) : Bool :=
  match cfg.sheetGids name with
  | none => true
  | some g => g.isEmpty

/-- `fetchSheet` (lines 210–219): no gid or no spreadsheet id resolves to
`[]`; a non-ok response throws `Failed to fetch <name>: <status>`; an ok
response is parsed with `parseCSV`. -/
def fetchSheet (cfg : SheetsConfig) (env : FetchEnv) (name : List Char) :
    Except (List Char) (List Row) :=
  if falsyGid cfg name || cfg.spreadsheetId.isEmpty then .ok []
  else if env.fetchOk name then .ok (parseCSV (env.fetchText name))
  else .error ("Failed to fetch ".toList ++ name ++ ": ".toList ++ env.fetchStatusText name)

/-- `fetchSheetOptional` (lines 222–228): swallow any failure into `[]`. -/
def fetchSheetOptional (cfg : SheetsConfig) (env : FetchEnv) (name : List Char) :
    List Row :=
  match fetchSheet cfg env name with
  | .ok r => r
  | .error _ => []

/-- The load-level error message built by the `sheet` wrapper inside
`loadGoogleSheetsData` (lines 295–303). -/
def couldNotLoadMsg (name msg : List Char) : List Char :=
  "Could not load sheet \"".toList ++ name ++ "\". ".toList ++ msg ++
    " Make sure the sheet is shared (Anyone with the link can view) and the spreadsheet ID / sheet GID match your workbook.".toList

/-- The `sheet` wrapper: re-throw any `fetchSheet` failure as a load-level
error naming the sheet. -/
def sheetRequired (cfg : SheetsConfig) (env : FetchEnv) (name : List Char) :
    Except (List Char) (List Row) :=
  match fetchSheet cfg env name with
  | .ok r => .ok r
  | .error msg => .error (couldNotLoadMsg name msg)

inductive TableKind
  | required
  | optional
deriving DecidableEq

/-- The 23 tables of the `Promise.all` array (lines 305–347), in array
order: 14 wrapped in `sheet(...)` (required) and 9 fetched with
`fetchSheetOptional` if their gid is configured, else resolved to `[]`. -/
def tableSpecs : List (List Char × TableKind) :=
  [("SalesKPIs".toList, .required),
   ("ForecastPoint".toList, .required),
   ("ForecastPointBySegment".toList, .required),
   ("PipelineStage".toList, .required),
   ("DealSegment".toList, .required),
   ("ARRByMonthPoint".toList, .required),
   ("ARR_LicenseDetail".toList, .required),
   ("ARR_MinimumDetail".toList, .required),
   ("ARR_VolumeDetail".toList, .required),
   ("PipelineDeal".toList, .required),
   ("ACVByMonth".toList, .required),
   ("ClientWinsPoint".toList, .required),
   ("ClientDeal".toList, .required),
   ("QuarterDeal".toList, .required),
   ("QuarterTargets".toList, .optional),
   ("QuarterTargetsByDealOwner".toList, .optional),
   ("CumulativeChartData".toList, .optional),
   ("QuarterMetricInput".toList, .optional),
   ("Q1details".toList, .optional),
   ("Q2details".toList, .optional),
   ("JanuaryDetails".toList, .optional),
   ("Febdetails".toList, .optional),
   ("Mardetails".toList, .optional)]

/-- One entry of the `Promise.all` array. -/
def loadEntry (cfg : SheetsConfig) (env : FetchEnv) :
    List Char × TableKind → Except (List Char) (List Row)
  | (name, .required) => sheetRequired cfg env name
  | (name, .optional) =>
    if falsyGid cfg name then .ok [] else .ok (fetchSheetOptional cfg env name)

/-- `Promise.all`: settle every entry; the first rejection (in array order)
rejects the whole load. -/
def collectTables (cfg : SheetsConfig) (env : FetchEnv) :
    List (List Char × TableKind) → Except (List Char) (List (List Row))
  | [] => .ok []
  | spec :: rest =>
    match loadEntry cfg env spec with
    | .error e => .error e
    | .ok r =>
      match collectTables cfg env rest with
      | .error e => .error e
      | .ok rs => .ok (r :: rs)

/-- The fetch fan-out stage of `loadGoogleSheetsData` (lines 291–347): fail
fast when no spreadsheet id is configured, then settle the 23 table fetches.
The result list is aligned with `tableSpecs`.  (The subsequent mapping of
row lists to typed entities does not affect which tables load or fail.) -/
def loadGoogleSheetsRows (cfg : SheetsConfig) (env : FetchEnv) :
    Except (List Char) (List (List Row)) :=
  if cfg.spreadsheetId.isEmpty then
    .error "Google Sheets spreadsheetId not configured".toList
  else collectTables cfg env tableSpecs

/-- `msg` contains `name` as a contiguous substring. -/
def NamesTable (msg name : List Char) : Prop :=
  ∃ a b, msg = a ++ name ++ b

end GSL

namespace QuarterTab
/-! Translation of the waterfall aggregation of
`src/components/sales/QuarterTab.tsx` (lines 743–774 and 805–861, plus the
row/running-total construction of lines 886–933). -/

open GSL (Row)

inductive QuarterId
  | q1
  | q2
  | q3
  | q4
deriving DecidableEq

/-- `QUARTER_MONTH_NUMS` (lines 29–34). -/
def QUARTER_MONTH_NUMS : QuarterId → List Int
  | .q1 => [1, 2, 3]
  | .q2 => [4, 5, 6]
  | .q3 => [7, 8, 9]
  | .q4 => [10, 11, 12]

/-- `QUARTER_MONTH_LABELS` (lines 22–27). -/
def QUARTER_MONTH_LABELS : QuarterId → List (List Char)
  | .q1 => ["Jan".toList, "Feb".toList, "Mar".toList]
  | .q2 => ["Apr".toList, "May".toList, "Jun".toList]
  | .q3 => ["Jul".toList, "Aug".toList, "Sep".toList]
  | .q4 => ["Oct".toList, "Nov".toList, "Dec".toList]

/-- The quarter id string, e.g. `2026Q2`. -/
def quarterName : QuarterId → List Char
  | .q1 => "2026Q1".toList
  | .q2 => "2026Q2".toList
  | .q3 => "2026Q3".toList
  | .q4 => "2026Q4".toList

/-- `CLIENT_WIN_MIN_CONFIDENCE` (line 37). -/
def CLIENT_WIN_MIN_CONFIDENCE : ℚ := 60

/-- `QuarterProjectionMetric` (line 40). -/
inductive ProjectionMetric
  | clientWins
  | acv
  | inYearRevenue
  | arrTarget
deriving DecidableEq

/-- JS `parseInt(s, 10)`: skip leading whitespace, optional sign, longest
digit prefix; `none` models `NaN`. -/
def jsParseIntDec (s : List Char) : Option Int :=
  let s1 := s.dropWhile isWS
  let (neg, s2) :=
    match s1 with
    | '-' :: r => (true, r)
    | '+' :: r => (false, r)
    | r => (false, r)
  let d := s2.takeWhile Char.isDigit
  if d.isEmpty then none
  else some (if neg then -(digitsNat d : Int) else (digitsNat d : Int))

/-- `monthNums.indexOf(mm)` followed by `idx >= 0 ? idx : null`. -/
def monthIdxOf (mm : Int) (q : QuarterId) : Option Nat :=
  (QUARTER_MONTH_NUMS q).findIdx? (fun n => n == mm)

/-- The date-like (`^(\d{4})-(\d{2})`) and integer fallbacks of
`parseMonthIndex` (lines 763–773). -/
def parseMonthIndexCore (s : List Char) (q : QuarterId) : Option Nat :=
  match s with
  | a :: b :: c :: d :: '-' :: e :: f :: _ =>
    if a.isDigit && b.isDigit && c.isDigit && d.isDigit && e.isDigit && f.isDigit
    then monthIdxOf (digitsNat [e, f] : Int) q
    else (jsParseIntDec s).bind fun n => monthIdxOf n q
  | _ => (jsParseIntDec s).bind fun n => monthIdxOf n q

/-- `parseMonthIndex` (lines 743–774): trim + lowercase, empty ↦ `null`,
month-name prefix per quarter, then date-like prefix, then plain integer.
(In the source the month-name checks read the enclosing `quarter` variable
while the numeric fallbacks read the parameter `q`; at its only call sites
the two are the same value, which the single parameter here reflects.) -/
def parseMonthIndex (raw : List Char) (q : QuarterId) : Option Nat :=
  let s := (jsTrim raw).map Char.toLower
  if s.isEmpty then none
  else
    let byName : Option Nat :=
      match q with
      | .q1 =>
        if startsWithL "jan".toList s then some 0
        else if startsWithL "feb".toList s then some 1
        else if startsWithL "mar".toList s then some 2
        else none
      | .q2 =>
        if startsWithL "apr".toList s then some 0
        else if startsWithL "may".toList s then some 1
        else if startsWithL "jun".toList s then some 2
        else none
      | .q3 =>
        if startsWithL "jul".toList s then some 0
        else if startsWithL "aug".toList s then some 1
        else if startsWithL "sep".toList s then some 2
        else none
      | .q4 =>
        if startsWithL "oct".toList s then some 0
        else if startsWithL "nov".toList s then some 1
        else if startsWithL "dec".toList s then some 2
        else none
    match byName with
    | some i => some i
    | none => parseMonthIndexCore s q

/-- JS `Number()` applied to a string over the alphabet `[0-9.-]` (the only
strings the `parseCompactNumber` fallback produces): empty ↦ 0, otherwise
the whole string must be a decimal literal, else `NaN` (`none`). -/
def jsNumberOfStripped (s : List Char) : Option ℚ :=
  if s.isEmpty then some 0
  else
    let (neg, s2) :=
      match s with
      | '-' :: r => (true, r)
      | r => (false, r)
    let ip := s2.takeWhile Char.isDigit
    let s3 := s2.dropWhile Char.isDigit
    let (fp, s4) :=
      match s3 with
      | '.' :: r => (r.takeWhile Char.isDigit, r.dropWhile Char.isDigit)
      | _ => ([], s3)
    if (ip.isEmpty && fp.isEmpty) || !s4.isEmpty then none
    else
      some ((if neg then -1 else 1) *
        ((digitsNat ip : ℚ) + (digitsNat fp : ℚ) / ((10 : ℚ) ^ fp.length)))

/-- The anchored regex `^(-?\d+(?:\.\d+)?)([kKmM])?$` of
`parseCompactNumber`: the whole string must be a signed decimal (with at
least one integer digit, and at least one fraction digit if a dot is
present) plus an optional `k`/`m` multiplier. -/
def matchCompact (s : List Char) : Option ℚ :=
  let (neg, s1) :=
    match s with
    | '-' :: r => (true, r)
    | r => (false, r)
  let ip := s1.takeWhile Char.isDigit
  let s2 := s1.dropWhile Char.isDigit
  if ip.isEmpty then none
  else
    let (fp, s3) :=
      match s2 with
      | '.' :: r =>
        if (r.takeWhile Char.isDigit).isEmpty then ([], '.' :: r)
        else (r.takeWhile Char.isDigit, r.dropWhile Char.isDigit)
      | _ => ([], s2)
    let base : ℚ := (if neg then -1 else 1) *
      ((digitsNat ip : ℚ) + (digitsNat fp : ℚ) / ((10 : ℚ) ^ fp.length))
    match s3 with
    | [] => some base
    | [c] =>
      if c = 'k' || c = 'K' then some (base * 1000)
      else if c = 'm' || c = 'M' then some (base * 1000000)
      else none
    | _ => none

/-- `parseCompactNumber` (lines 715–731): trim, drop `$`/`,` and all
whitespace, match the anchored compact-number regex (`55k ↦ 55000`,
`1.2m ↦ 1200000`), else fall back to `Number` of the string stripped to
`[0-9.\-]`, with non-finite ↦ 0. -/
def parseCompactNumber (raw : List Char) : ℚ :=
  let s := jsTrim raw
  if s.isEmpty then 0
  else
    let cleaned := ((s.filter fun c => !(c = '$' || c = ',')).filter fun c => !isWS c)
    match matchCompact cleaned with
    | some v => v
    | none =>
      (jsNumberOfStripped (cleaned.filter fun c => c.isDigit || c = '.' || c = '-')).getD 0

/-- `parseConfidence` (lines 733–740): trim, drop `%` signs, empty ↦ 0,
`parseFloat`, non-finite ↦ 0, values ≤ 1 scaled to 0–100. -/
def parseConfidence (raw : List Char) : ℚ :=
  let s := (jsTrim raw).filter fun c => !(c = '%')
  if s.isEmpty then 0
  else
    match jsParseFloat s with
    | none => 0
    | some n => if n ≤ 1 then n * 100 else n

/-- `isSignedStatus` (lines 776–780): lowercase, strip whitespace, then
look for `signed` / `closedwon` / `closed`+`won` / exactly `won`. -/
def isSignedStatus (raw : List Char) : Bool :=
  let s := (raw.map Char.toLower).filter fun c => !isWS c
  if s.isEmpty then false
  else
    containsL "signed".toList s || containsL "closedwon".toList s ||
      (containsL "closed".toList s && containsL "won".toList s) ||
      s = "won".toList

/-- The column-name configuration of a details view (`q1DetailsView` /
`q2DetailsView`): each column is optionally present. -/
structure DetailsView where
  confidenceCol : Option (List Char)
  monthCloseCol : Option (List Char)
  statusCol : Option (List Char)
  acvCol : Option (List Char)
  weightedAcvCol : Option (List Char)
  fy26ArrForecastCol : Option (List Char)

/-- `col ? (row[col] ?? '') : ''`. -/
def rowGet (row : Row) (col : Option (List Char)) : List Char :=
  match col with
  | some k => (objGet? row k).getD []
  | none => []

/-- One iteration of the `for (const row of detailsView.rowsToShow)` loop
(lines 805–834), updating the `(signedAcc, forecastAcc)` pair. -/
def aggStep (dv : DetailsView) (metric : ProjectionMetric) (q : QuarterId)
    (acc : List ℚ × List ℚ) (row : Row) : List ℚ × List ℚ :=
  if (metric = .clientWins ∨ metric = .acv ∨ metric = .arrTarget) ∧
      dv.confidenceCol.isSome ∧
      parseConfidence (rowGet row dv.confidenceCol) < CLIENT_WIN_MIN_CONFIDENCE then
    acc
  else
    match parseMonthIndex (rowGet row dv.monthCloseCol) q with
    | none => acc
    | some idx =>
      let value : ℚ :=
        match metric with
        | .clientWins => 1
        | .acv =>
          let w := parseCompactNumber (rowGet row dv.weightedAcvCol)
          if w = 0 then parseCompactNumber (rowGet row dv.acvCol) else w
        | _ => parseCompactNumber (rowGet row dv.fy26ArrForecastCol)
      if value = 0 then acc
      else if isSignedStatus (rowGet row dv.statusCol) then
        (acc.1.set idx (acc.1.getD idx 0 + value), acc.2)
      else
        (acc.1, acc.2.set idx (acc.2.getD idx 0 + value))

/-- The whole details-table aggregation loop: fold `aggStep` over the rows,
starting from `([0, 0, 0], [0, 0, 0])`. -/
def aggregateDetails (dv : DetailsView) (metric : ProjectionMetric)
    (q : QuarterId) (rows : List Row) : List ℚ × List ℚ :=
  rows.foldl (aggStep dv metric q) ([0, 0, 0], [0, 0, 0])

/-- `WaterfallRow` as pushed by lines 890–933. -/
structure WaterfallRow where
  name : List Char
  baseline : ℚ
  signed : ℚ
  forecasted : ℚ
  target : Option ℚ
  isTotal : Bool
  isTarget : Bool
deriving DecidableEq

/-- The waterfall row construction of lines 886–933: optional carry-over
row, three month rows with running-total baselines, `Total Projected`
(including carry-over for Q2), and the target row. -/
def buildWaterfallRows (q : QuarterId) (monthSigned monthForecasted : List ℚ)
    (carryS carryF targetValue : ℚ) : List WaterfallRow :=
  let labels := QUARTER_MONTH_LABELS q
  let totalSigned := monthSigned.getD 0 0 + monthSigned.getD 1 0 + monthSigned.getD 2 0
  let totalForecasted :=
    monthForecasted.getD 0 0 + monthForecasted.getD 1 0 + monthForecasted.getD 2 0
  let targetLabel :=
    if q = .q1 then "Q1 Target".toList else quarterName q ++ " Target".toList
  let carryRows : List WaterfallRow :=
    if q ≠ .q1 then [⟨"Carry-over".toList, 0, carryS, carryF, none, false, false⟩] else []
  let running0 : ℚ := if q ≠ .q1 then carryS + carryF else 0
  let s0 := monthSigned.getD 0 0
  let f0 := monthForecasted.getD 0 0
  let s1 := monthSigned.getD 1 0
  let f1 := monthForecasted.getD 1 0
  let s2 := monthSigned.getD 2 0
  let f2 := monthForecasted.getD 2 0
  let totalProjectedSigned := if q = .q2 then carryS + totalSigned else totalSigned
  let totalProjectedForecasted :=
    if q = .q2 then carryF + totalForecasted else totalForecasted
  carryRows ++
    [⟨labels.getD 0 [], running0, s0, f0, none, false, false⟩,
     ⟨labels.getD 1 [], running0 + s0 + f0, s1, f1, none, false, false⟩,
     ⟨labels.getD 2 [], running0 + s0 + f0 + s1 + f1, s2, f2, none, false, false⟩,
     ⟨"Total Projected".toList, 0, totalProjectedSigned, totalProjectedForecasted,
       none, true, false⟩,
     ⟨targetLabel, 0, 0, 0, some targetValue, false, true⟩]

end QuarterTab

namespace VolumeUtils
/-! Translation of the volume aggregation utilities of `src/unnamed/part_001`. -/

/-- `VolumeDataRow`, restricted to the fields the aggregators read
(`client?: string` is optional, `totalVolume: number`). -/
structure VolumeDataRow where
  client : Option (List Char)
  totalVolume : ℚ

/-- `sumTotalVolume` (lines 73–75).  (`Number.isFinite(row.totalVolume)` is
identically true in the exact-rational model, so the `: 0` arm vanishes.) -/
def sumTotalVolume (data : List VolumeDataRow) : ℚ :=
  data.foldl (fun sum row => sum + row.totalVolume) 0

/-- `aggregateVolumeByClient` (lines 77–89): group by trimmed client name
(defaulting to `(Unknown)`), accumulating `totalVolume` in a `Map`. -/
def aggregateVolumeByClient (data : List VolumeDataRow) :
    List (List Char × ℚ) :=
  data.foldl
    (fun m row =>
      let rawClient := jsTrim (row.client.getD [])
      let client := if rawClient.length > 0 then rawClient else "(Unknown)".toList
      objSet m client ((objGet? m client).getD 0 + row.totalVolume))
    []

/-- The sum of all bucket totals of a grouped result. -/
def bucketTotalsSum (m : List (List Char × ℚ)) : ℚ :=
  (m.map Prod.snd).sum

end VolumeUtils

namespace GSL

/-- Scenario 1's pipeline: each record of a parsed blob paired as
(month, numeric acv), the month read through the mapping's
`String((cell(r, 'month') || r.month) ?? '')` pattern and the record's
acv field coerced with the pipeline's number coercion `num`, as the
`acvByMonth` mapping coerces its numeric fields.  (The literal `acvByMonth`
mapping reads the key `totalACV`, which Scenario 1's `ACV` header does not
produce; see `acvByMonth_literal_totalACV`.) -/
def monthAcvRecords (csv : List Char) : List (List Char × ℚ) :=
  (parseCSV csv).map fun r => (cellOr r "month".toList, num (cellOr r "acv".toList))

/-- The exact CSV text of Scenario 1. -/
def scenario1CSV : List Char := "Month,ACV\nJan,\"1,000\"\nFeb,2k\n".toList

end GSL

/-! ## Claim theorems -/

open GSL QuarterTab VolumeUtils CSVSpec

set_option maxRecDepth 40000 in
/-- C1 (counterexample): on Scenario 1's exact CSV text the pipeline does
not produce the records claimed: the second record's acv is not 2000
(`num` strips the `k` instead of expanding it). -/
theorem monthAcv_scenario1_claim_false :
    monthAcvRecords scenario1CSV ≠
      [("Jan".toList, (1000 : ℚ)), ("Feb".toList, (2000 : ℚ))] := by
  with_unfolding_all decide

set_option maxRecDepth 40000 in
/-- C1 (amended): Scenario 1's CSV text parses to exactly two records,
(Jan, 1000) and (Feb, 2): the quoted thousands separator is stripped, but
the compact suffix `k` of `2k` is also stripped by `num`, not expanded,
so the second acv is 2, not 2000. -/
theorem monthAcv_scenario1_eval :
    monthAcvRecords scenario1CSV =
      [("Jan".toList, (1000 : ℚ)), ("Feb".toList, (2 : ℚ))] := by
  with_unfolding_all decide

set_option maxRecDepth 40000 in
/-- The `acvByMonth` mapping as written reads the key `totalACV`, which is
absent from Scenario 1's records, so its literal numeric output is 0 for
both rows. -/
theorem acvByMonth_literal_totalACV :
    (parseCSV scenario1CSV).map (fun r => num (cellOr r "totalACV".toList)) =
      [(0 : ℚ), 0] := by
  with_unfolding_all decide

/-! ### C7: conservation of grouped volume sums -/

theorem bucketTotalsSum_objSet (m : List (List Char × ℚ)) (k : List Char) (v : ℚ) :
    bucketTotalsSum (objSet m k ((objGet? m k).getD 0 + v)) =
      bucketTotalsSum m + v := by
  induction m with
  | nil => simp [objSet, objGet?, bucketTotalsSum]
  | cons p t ih =>
    obtain ⟨k', v'⟩ := p
    by_cases hk : k' = k
    · subst hk
      simp [objSet, objGet?, bucketTotalsSum]
      ring
    · simp only [objSet, objGet?, if_neg hk, bucketTotalsSum, List.map_cons,
        List.sum_cons] at *
      rw [ih]
      ring

theorem sumTotalVolume_cons (row : VolumeDataRow) (rest : List VolumeDataRow) :
    sumTotalVolume (row :: rest) = row.totalVolume + sumTotalVolume rest := by
  have shift : ∀ (l : List VolumeDataRow) (a : ℚ),
      l.foldl (fun s r => s + r.totalVolume) a =
        a + l.foldl (fun s r => s + r.totalVolume) 0 := by
    intro l
    induction l with
    | nil => simp
    | cons x t ih =>
      intro a
      simp only [List.foldl_cons]
      rw [ih (a + x.totalVolume), ih (0 + x.totalVolume)]
      ring
  simp only [sumTotalVolume, List.foldl_cons]
  rw [shift rest (0 + row.totalVolume)]
  ring

theorem volume_foldl_sum (data : List VolumeDataRow) :
    ∀ m : List (List Char × ℚ),
      bucketTotalsSum
        (data.foldl
          (fun m row =>
            let rawClient := jsTrim (row.client.getD [])
            let client :=
              if rawClient.length > 0 then rawClient else "(Unknown)".toList
            objSet m client ((objGet? m client).getD 0 + row.totalVolume))
          m) =
      bucketTotalsSum m + sumTotalVolume data := by
  induction data with
  | nil => simp [sumTotalVolume]
  | cons row rest ih =>
    intro m
    simp only [List.foldl_cons]
    rw [ih, bucketTotalsSum_objSet, sumTotalVolume_cons]
    ring

/-- C7: grouping volume records by client and summing all bucket totals
equals the total volume of the whole input sequence, and the same holds
for any filtered sub-sequence (an empty filter selection being the whole
sequence). -/
theorem volume_conservation (data : List VolumeDataRow) :
    bucketTotalsSum (aggregateVolumeByClient data) = sumTotalVolume data ∧
    ∀ p : VolumeDataRow → Bool,
      bucketTotalsSum (aggregateVolumeByClient (data.filter p)) =
        sumTotalVolume (data.filter p) := by
  constructor
  · have h := volume_foldl_sum data []
    simpa [aggregateVolumeByClient, bucketTotalsSum] using h
  · intro p
    have h := volume_foldl_sum (data.filter p) []
    simpa [aggregateVolumeByClient, bucketTotalsSum] using h

/-! ### C6: rows with missing/unparseable close dates are excluded -/

theorem aggStep_month_none (dv : DetailsView) (metric : ProjectionMetric)
    (q : QuarterId) (acc : List ℚ × List ℚ) (row : Row)
    (h : parseMonthIndex (rowGet row dv.monthCloseCol) q = none) :
    aggStep dv metric q acc row = acc := by
  simp [aggStep, h]

/-- C6: an entity whose month-close value is unparseable for the selected
quarter (in particular the empty string) contributes nothing to the
waterfall aggregation: removing it leaves every signed and forecasted
monthly bucket unchanged, and therefore every waterfall row (including all
running-total baselines and the projected totals) unchanged. -/
theorem waterfall_excludes_unparseable_close (dv : DetailsView)
    (metric : ProjectionMetric) (q : QuarterId) (pre post : List Row)
    (row : Row)
    (h : parseMonthIndex (rowGet row dv.monthCloseCol) q = none) :
    aggregateDetails dv metric q (pre ++ row :: post) =
      aggregateDetails dv metric q (pre ++ post) ∧
    (∀ q' : QuarterId, parseMonthIndex [] q' = none) ∧
    ∀ carryS carryF targetValue : ℚ,
      buildWaterfallRows q (aggregateDetails dv metric q (pre ++ row :: post)).1
          (aggregateDetails dv metric q (pre ++ row :: post)).2
          carryS carryF targetValue =
        buildWaterfallRows q (aggregateDetails dv metric q (pre ++ post)).1
          (aggregateDetails dv metric q (pre ++ post)).2
          carryS carryF targetValue := by
  have hagg : aggregateDetails dv metric q (pre ++ row :: post) =
      aggregateDetails dv metric q (pre ++ post) := by
    simp only [aggregateDetails, List.foldl_append, List.foldl_cons]
    rw [aggStep_month_none dv metric q _ row h]
  refine ⟨hagg, ?_, ?_⟩
  · intro q'
    cases q' <;> rfl
  · intro carryS carryF targetValue
    rw [hagg]

/-- C6 witness: a concrete instantiation with a row whose close-month cell
is the empty string. -/
theorem waterfall_excludes_unparseable_close_witness :
    aggregateDetails
        ⟨none, some "monthclose".toList, some "status".toList, none, none,
          some "fy26arrforecast".toList⟩
        ProjectionMetric.inYearRevenue QuarterId.q1
        ([[(("monthclose".toList, "Jan".toList)),
           (("fy26arrforecast".toList, "100".toList)),
           (("status".toList, "Signed".toList))]] ++
          [(("monthclose".toList, "".toList)) ::
           (("fy26arrforecast".toList, "55".toList)) :: []] ++ []) =
      aggregateDetails
        ⟨none, some "monthclose".toList, some "status".toList, none, none,
          some "fy26arrforecast".toList⟩
        ProjectionMetric.inYearRevenue QuarterId.q1
        ([[(("monthclose".toList, "Jan".toList)),
           (("fy26arrforecast".toList, "100".toList)),
           (("status".toList, "Signed".toList))]] ++ []) := by
  have h :=
    (waterfall_excludes_unparseable_close
      ⟨none, some "monthclose".toList, some "status".toList, none, none,
        some "fy26arrforecast".toList⟩
      ProjectionMetric.inYearRevenue QuarterId.q1
      [[(("monthclose".toList, "Jan".toList)),
        (("fy26arrforecast".toList, "100".toList)),
        (("status".toList, "Signed".toList))]] []
      ((("monthclose".toList, "".toList)) ::
        (("fy26arrforecast".toList, "55".toList)) :: [])
      (by decide)).1
  simpa using h

/-! ### C5 / C8: required vs optional table loading -/

theorem loadEntry_optional_falsy (cfg : SheetsConfig) (env : FetchEnv)
    (name : List Char) (h : falsyGid cfg name = true) :
    loadEntry cfg env (name, TableKind.optional) = .ok [] := by
  simp [loadEntry, h]

theorem fetchSheet_silent (cfg : SheetsConfig) (env : FetchEnv) (name : List Char)
    (h : falsyGid cfg name = true ∨ cfg.spreadsheetId.isEmpty = true) :
    fetchSheet cfg env name = .ok [] := by
  rcases h with h | h <;> simp [fetchSheet, h]

theorem sheetRequired_silent (cfg : SheetsConfig) (env : FetchEnv) (name : List Char)
    (h : falsyGid cfg name = true ∨ cfg.spreadsheetId.isEmpty = true) :
    sheetRequired cfg env name = .ok [] := by
  rw [sheetRequired, fetchSheet_silent cfg env name h]

theorem sheetRequired_error_conditions (cfg : SheetsConfig) (env : FetchEnv)
    (name e : List Char) (h : sheetRequired cfg env name = .error e) :
    falsyGid cfg name = false ∧ cfg.spreadsheetId.isEmpty = false ∧
      env.fetchOk name = false ∧ NamesTable e name := by
  rw [sheetRequired] at h
  rcases heq : fetchSheet cfg env name with msg | r
  · rw [heq] at h
    have hmsg : e = couldNotLoadMsg name msg := by
      cases h
      rfl
    rw [fetchSheet] at heq
    by_cases h1 : falsyGid cfg name || cfg.spreadsheetId.isEmpty
    · rw [if_pos h1] at heq
      cases heq
    · rw [if_neg h1] at heq
      by_cases h2 : env.fetchOk name
      · rw [if_pos h2] at heq
        cases heq
      · simp only [Bool.or_eq_true, not_or, Bool.not_eq_true] at h1
        refine ⟨h1.1, h1.2, by simpa using h2, ?_⟩
        refine ⟨"Could not load sheet \"".toList,
          "\". ".toList ++ msg ++
            " Make sure the sheet is shared (Anyone with the link can view) and the spreadsheet ID / sheet GID match your workbook.".toList, ?_⟩
        simp [hmsg, couldNotLoadMsg]
  · rw [heq] at h
    cases h

theorem sheetRequired_ok_of_fetchOk (cfg : SheetsConfig) (env : FetchEnv)
    (name : List Char) (h : env.fetchOk name = true) :
    ∃ r, sheetRequired cfg env name = .ok r := by
  rw [sheetRequired, fetchSheet]
  by_cases h1 : falsyGid cfg name || cfg.spreadsheetId.isEmpty
  · rw [if_pos h1]
    exact ⟨[], rfl⟩
  · rw [if_neg h1, if_pos h]
    exact ⟨_, rfl⟩

theorem collectTables_get (cfg : SheetsConfig) (env : FetchEnv) :
    ∀ (specs : List (List Char × TableKind)) (d : List (List Row)),
      collectTables cfg env specs = .ok d →
      ∀ (i : Nat) (spec : List Char × TableKind), specs.get? i = some spec →
        ∃ r, loadEntry cfg env spec = .ok r ∧ d.get? i = some r := by
  intro specs
  induction specs with
  | nil =>
    intro d _ i spec hi
    simp at hi
  | cons spec₀ rest ih =>
    intro d hd i spec hi
    rw [collectTables] at hd
    rcases he : loadEntry cfg env spec₀ with e | r
    · rw [he] at hd
      cases hd
    · rw [he] at hd
      rcases hr : collectTables cfg env rest with e | rs
      · rw [hr] at hd
        cases hd
      · rw [hr] at hd
        cases hd
        cases i with
        | zero =>
          cases hi
          exact ⟨r, he, rfl⟩
        | succ j =>
          exact ih rs hr j spec hi

theorem collectTables_error_src (cfg : SheetsConfig) (env : FetchEnv) :
    ∀ (specs : List (List Char × TableKind)) (e : List Char),
      collectTables cfg env specs = .error e →
      ∃ name, (name, TableKind.required) ∈ specs ∧
        sheetRequired cfg env name = .error e := by
  intro specs
  induction specs with
  | nil =>
    intro e he
    cases he
  | cons spec₀ rest ih =>
    intro e he
    rw [collectTables] at he
    rcases h0 : loadEntry cfg env spec₀ with e₀ | r
    · rw [h0] at he
      cases he
      obtain ⟨name, kind⟩ := spec₀
      cases kind with
      | required =>
        exact ⟨name, List.mem_cons_self _ _, h0⟩
      | optional =>
        rw [loadEntry] at h0
        by_cases hf : falsyGid cfg name = true
        · rw [if_pos hf] at h0
          cases h0
        · rw [if_neg hf] at h0
          cases h0
    · rw [h0] at he
      rcases hr : collectTables cfg env rest with e₁ | rs
      · rw [hr] at he
        cases he
        obtain ⟨name, hmem, hname⟩ := ih _ hr
        exact ⟨name, List.mem_cons_of_mem _ hmem, hname⟩
      · rw [hr] at he
        cases he

theorem collectTables_error_of_failure (cfg : SheetsConfig) (env : FetchEnv) :
    ∀ (specs : List (List Char × TableKind)) (name : List Char),
      (name, TableKind.required) ∈ specs → falsyGid cfg name = false →
      cfg.spreadsheetId.isEmpty = false → env.fetchOk name = false →
      ∃ e, collectTables cfg env specs = .error e := by
  intro specs
  induction specs with
  | nil =>
    intro name hmem
    simp at hmem
  | cons spec₀ rest ih =>
    intro name hmem hf hid hok
    rcases h0 : loadEntry cfg env spec₀ with e₀ | r
    · exact ⟨e₀, by rw [collectTables, h0]⟩
    · rcases List.mem_cons.mp hmem with heq | htail
      · subst heq
        rw [loadEntry, sheetRequired, fetchSheet, hf, hid] at h0
        simp only [Bool.or_self, Bool.false_eq_true, if_false, hok] at h0
        cases h0
      · obtain ⟨e, he⟩ := ih name htail hf hid hok
        exact ⟨e, by rw [collectTables, h0, he]⟩

theorem collectTables_ok_of_allOk (cfg : SheetsConfig) (env : FetchEnv) :
    ∀ specs : List (List Char × TableKind),
      (∀ name, (name, TableKind.required) ∈ specs →
        ∃ r, sheetRequired cfg env name = .ok r) →
      ∃ d, collectTables cfg env specs = .ok d := by
  intro specs
  induction specs with
  | nil =>
    intro _
    exact ⟨[], rfl⟩
  | cons spec₀ rest ih =>
    intro hall
    obtain ⟨name, kind⟩ := spec₀
    obtain ⟨ds, hds⟩ := ih fun n hn => hall n (List.mem_cons_of_mem _ hn)
    cases kind with
    | required =>
      obtain ⟨r, hr⟩ := hall name (List.mem_cons_self _ _)
      exact ⟨r :: ds, by rw [collectTables, loadEntry, hr, hds]⟩
    | optional =>
      rw [collectTables]
      by_cases hf : falsyGid cfg name = true
      · rw [loadEntry_optional_falsy cfg env name hf, hds]
        exact ⟨[] :: ds, rfl⟩
      · rw [loadEntry]
        simp only [hf, if_false]
        rw [hds]
        exact ⟨_ :: ds, rfl⟩

/-- C5: (a) when a required table's fetch fails (non-success response on a
configured gid), the whole load rejects with an error naming a failing
required table and no result object is produced; (b) every load-level error
names a failing required table (optional tables never cause one); (c) every
optional table whose gid is absent/blank in the configuration contributes
the empty row list to a successful load. -/
theorem load_required_error_optional_empty (cfg : SheetsConfig) (env : FetchEnv) :
    (∀ name, (name, TableKind.required) ∈ tableSpecs →
      falsyGid cfg name = false → cfg.spreadsheetId.isEmpty = false →
      env.fetchOk name = false →
      ∃ e name', loadGoogleSheetsRows cfg env = .error e ∧
        (name', TableKind.required) ∈ tableSpecs ∧ falsyGid cfg name' = false ∧
        env.fetchOk name' = false ∧ NamesTable e name') ∧
    (∀ e, cfg.spreadsheetId.isEmpty = false →
      loadGoogleSheetsRows cfg env = .error e →
      ∃ name', (name', TableKind.required) ∈ tableSpecs ∧
        falsyGid cfg name' = false ∧ env.fetchOk name' = false ∧
        NamesTable e name') ∧
    (∀ d i name, loadGoogleSheetsRows cfg env = .ok d →
      tableSpecs.get? i = some (name, TableKind.optional) →
      falsyGid cfg name = true → d.get? i = some []) := by
  refine ⟨?_, ?_, ?_⟩
  · intro name hmem hf hid hok
    obtain ⟨e, he⟩ := collectTables_error_of_failure cfg env tableSpecs name hmem hf hid hok
    obtain ⟨name', hmem', herr'⟩ := collectTables_error_src cfg env tableSpecs e he
    obtain ⟨hf', _, hok', hnames⟩ := sheetRequired_error_conditions cfg env name' e herr'
    exact ⟨e, name', by rw [loadGoogleSheetsRows, hid]; simpa using he,
      hmem', hf', hok', hnames⟩
  · intro e hid he
    rw [loadGoogleSheetsRows, hid] at he
    simp only [Bool.false_eq_true, if_false] at he
    obtain ⟨name', hmem', herr'⟩ := collectTables_error_src cfg env tableSpecs e he
    obtain ⟨hf', _, hok', hnames⟩ := sheetRequired_error_conditions cfg env name' e herr'
    exact ⟨name', hmem', hf', hok', hnames⟩
  · intro d i name hd hi hf
    rw [loadGoogleSheetsRows] at hd
    by_cases hid : cfg.spreadsheetId.isEmpty
    · rw [if_pos hid] at hd
      cases hd
    · rw [if_neg hid] at hd
      obtain ⟨r, hr, hdi⟩ := collectTables_get cfg env tableSpecs d hd i _ hi
      rw [loadEntry_optional_falsy cfg env name hf] at hr
      cases hr
      exact hdi

/-- C8: a table whose gid is absent/blank (or a blank spreadsheet id) makes
`fetchSheet` resolve to the empty row list instead of throwing; the
required-table wrapper therefore also succeeds with `[]`, such a table
contributes `[]` to a successful load even when required, and a load whose
only unfetchable tables are unconfigured ones produces a full result with
no load-level error. -/
theorem fetchSheet_unconfigured_silent (cfg : SheetsConfig) (env : FetchEnv)
    (name : List Char)
    (h : falsyGid cfg name = true ∨ cfg.spreadsheetId.isEmpty = true) :
    fetchSheet cfg env name = .ok [] ∧
    sheetRequired cfg env name = .ok [] ∧
    (∀ d i kind, loadGoogleSheetsRows cfg env = .ok d →
      tableSpecs.get? i = some (name, kind) → d.get? i = some []) ∧
    ((∀ n, (n, TableKind.required) ∈ tableSpecs →
        falsyGid cfg n = false → env.fetchOk n = true) →
      cfg.spreadsheetId.isEmpty = false →
      ∃ d, loadGoogleSheetsRows cfg env = .ok d) := by
  refine ⟨fetchSheet_silent cfg env name h, sheetRequired_silent cfg env name h,
    ?_, ?_⟩
  · intro d i kind hd hi
    rw [loadGoogleSheetsRows] at hd
    by_cases hid : cfg.spreadsheetId.isEmpty
    · rw [if_pos hid] at hd
      cases hd
    · rw [if_neg hid] at hd
      have hf : falsyGid cfg name = true := by
        rcases h with h | h
        · exact h
        · rw [h] at hid
          simp at hid
      obtain ⟨r, hr, hdi⟩ := collectTables_get cfg env tableSpecs d hd i _ hi
      cases kind with
      | required =>
        rw [loadEntry, sheetRequired_silent cfg env name (Or.inl hf)] at hr
        cases hr
        exact hdi
      | optional =>
        rw [loadEntry_optional_falsy cfg env name hf] at hr
        cases hr
        exact hdi
  · intro hall hid
    have hok : ∀ n, (n, TableKind.required) ∈ tableSpecs →
        ∃ r, sheetRequired cfg env n = .ok r := by
      intro n hn
      by_cases hf : falsyGid cfg n = true
      · exact ⟨[], sheetRequired_silent cfg env n (Or.inl hf)⟩
      · exact sheetRequired_ok_of_fetchOk cfg env n
          (hall n hn (by simpa using hf))
    obtain ⟨d, hd⟩ := collectTables_ok_of_allOk cfg env tableSpecs hok
    exact ⟨d, by rw [loadGoogleSheetsRows, hid]; simpa using hd⟩

/-- A configuration/environment in which every sheet gid is present but
every fetch fails. -/
def cfgAllGids : SheetsConfig := ⟨"SPID".toList, fun _ => some "1".toList⟩

def envAllFail : FetchEnv := ⟨fun _ => false, fun _ => "404".toList, fun _ => []⟩

/-- C5 witness: with every gid configured and every fetch failing, the load
rejects with an error naming a failing required table. -/
theorem load_required_error_optional_empty_witness :
    ∃ e name', loadGoogleSheetsRows cfgAllGids envAllFail = .error e ∧
      (name', TableKind.required) ∈ tableSpecs ∧
      falsyGid cfgAllGids name' = false ∧
      envAllFail.fetchOk name' = false ∧ NamesTable e name' :=
  (load_required_error_optional_empty cfgAllGids envAllFail).1
    "SalesKPIs".toList (by decide) (by decide) (by decide) (by decide)

/-- A configuration in which the required `SalesKPIs` sheet has no gid but
every other sheet is configured and fetches fine (an empty sheet body). -/
def cfgNoKPIs : SheetsConfig :=
  ⟨"SPID".toList, fun n => if n = "SalesKPIs".toList then none else some "1".toList⟩

def envAllOk : FetchEnv := ⟨fun _ => true, fun _ => "200".toList, fun _ => []⟩

/-- C8 witness: the required `SalesKPIs` table with no configured gid
resolves silently to the empty row list and the whole load succeeds. -/
theorem fetchSheet_unconfigured_silent_witness :
    fetchSheet cfgNoKPIs envAllOk "SalesKPIs".toList = .ok [] ∧
    sheetRequired cfgNoKPIs envAllOk "SalesKPIs".toList = .ok [] ∧
    (∀ d i kind, loadGoogleSheetsRows cfgNoKPIs envAllOk = .ok d →
      tableSpecs.get? i = some ("SalesKPIs".toList, kind) → d.get? i = some []) ∧
    ((∀ n, (n, TableKind.required) ∈ tableSpecs →
        falsyGid cfgNoKPIs n = false → envAllOk.fetchOk n = true) →
      cfgNoKPIs.spreadsheetId.isEmpty = false →
      ∃ d, loadGoogleSheetsRows cfgNoKPIs envAllOk = .ok d) :=
  fetchSheet_unconfigured_silent cfgNoKPIs envAllOk "SalesKPIs".toList
    (Or.inl (by decide))

/-! ### C2: pad/truncate to header width and trailing empty fields -/

theorem normalizedValues_length (n : Nat) (vs : List (List Char)) :
    (normalizedValues n vs).length = n := by
  simp [normalizedValues]

theorem normalizedValues_getD (n : Nat) (vs : List (List Char)) (j : Nat)
    (hj : j < n) :
    (normalizedValues n vs).getD j [] = cleanCell (vs.getD j []) := by
  rw [normalizedValues, List.getD_eq_getElem?_getD, List.getElem?_map,
    List.getElem?_range hj]
  rfl

theorem objGet?_objSet {α : Type} (r : List (List Char × α)) (h k : List Char)
    (v : α) :
    objGet? (objSet r h v) k = if k = h then some v else objGet? r k := by
  induction r with
  | nil =>
    by_cases hk : k = h
    · subst hk
      simp [objSet, objGet?]
    · have h2 : (h = k) = False := eq_false fun hh => hk hh.symm
      simp [objSet, objGet?, hk, h2]
  | cons p t ih =>
    obtain ⟨k', v'⟩ := p
    by_cases h1 : k' = h
    · subst h1
      by_cases hk : k = k'
      · subst hk
        simp [objSet, objGet?]
      · have h2 : (k' = k) = False := eq_false fun hh => hk hh.symm
        simp [objSet, objGet?, hk, h2]
    · by_cases hk2 : k' = k
      · have h3 : (k = h) = False := eq_false fun hh => h1 (hk2.trans hh)
        have h4 : (k' = k) = True := eq_true hk2
        simp [objSet, objGet?, h1, h3, h4, ih]
      · have h2 : (k' = k) = False := eq_false hk2
        simp [objSet, objGet?, h1, h2, ih]

theorem buildRowGo_mem_isSome (nv : List (List Char)) :
    ∀ (hs : List (List Char)) (row : Row) (j : Nat) (k : List Char),
      (objGet? (buildRowGo nv row j hs) k).isSome = true ↔
        ((objGet? row k).isSome = true ∨ k ∈ hs) := by
  intro hs
  induction hs with
  | nil => simp [buildRowGo]
  | cons h t ih =>
    intro row j k
    rw [buildRowGo, ih, objGet?_objSet]
    by_cases hk : k = h
    · simp [hk]
    · simp [hk]

theorem parseLineAux_trailing :
    ∀ (fuel : Nat) (rem : List Char) (out : List (List Char)),
      rem.length < fuel →
      (parseLineAux true fuel rem out).getLast? = some [] := by
  intro fuel
  induction fuel with
  | zero =>
    intro rem out h
    omega
  | succ f ih =>
    intro rem out h
    cases rem with
    | nil =>
      simp [parseLineAux]
    | cons c rest =>
      rw [parseLineAux]
      by_cases hc : c = '"'
      · rw [if_pos hc]
        apply ih
        have ha := parseQuoted_snd_length_le rest []
        have hb := skipComma_length_le (parseQuoted rest []).2
        simp only [List.length_cons] at h
        omega
      · rw [if_neg hc]
        apply ih
        have := scan_skip_length_lt c rest
        simp only [List.length_cons] at h this ⊢
        omega

/-- C2: parseCSV pads short rows with empty strings up to the header
width, drops extra fields beyond it, builds every record with a defined
value under every header key, and `parseCSVLine` preserves a trailing
empty field after a final delimiter as an empty string. -/
theorem parseCSV_pad_truncate_trailing
    (csv l0 l1 : List Char) (rest : List (List Char))
    (hl : csvLines csv = l0 :: l1 :: rest)
    (line : List Char) (hline : line ∈ l1 :: rest) :
    (normalizedValues ((parseCSVLine l0).map headerKey).length
        (parseCSVLine line)).length =
      ((parseCSVLine l0).map headerKey).length ∧
    (∀ j, j < ((parseCSVLine l0).map headerKey).length →
      (parseCSVLine line).length ≤ j →
      (normalizedValues ((parseCSVLine l0).map headerKey).length
        (parseCSVLine line)).getD j [] = []) ∧
    (∀ j, j < ((parseCSVLine l0).map headerKey).length →
      (normalizedValues ((parseCSVLine l0).map headerKey).length
        (parseCSVLine line)).getD j [] =
        cleanCell ((parseCSVLine line).getD j [])) ∧
    buildRow ((parseCSVLine l0).map headerKey)
        (normalizedValues ((parseCSVLine l0).map headerKey).length
          (parseCSVLine line)) ∈ parseCSV csv ∧
    (∀ h, h ∈ (parseCSVLine l0).map headerKey →
      (objGet? (buildRow ((parseCSVLine l0).map headerKey)
        (normalizedValues ((parseCSVLine l0).map headerKey).length
          (parseCSVLine line))) h).isSome = true) ∧
    (∀ l' : List Char, l' ≠ [] → l'.getLast? = some ',' →
      (parseCSVLine l').getLast? = some []) := by
  refine ⟨normalizedValues_length _ _, ?_, ?_, ?_, ?_, ?_⟩
  · intro j hj hvs
    rw [normalizedValues_getD _ _ j hj, List.getD_eq_default _ _ hvs]
    rfl
  · intro j hj
    exact normalizedValues_getD _ _ j hj
  · rw [parseCSV, hl]
    exact List.mem_map_of_mem _ hline
  · intro h hh
    rw [buildRow, buildRowGo_mem_isSome]
    exact Or.inr hh
  · intro l' hne hlast
    have hec : (l'.getLast? == some ',') = true := by
      simp [hlast]
    rw [parseCSVLine, hec]
    exact parseLineAux_trailing (l'.length + 1) l' [] (by omega)

/-- C2 witness: a concrete blob with a short row, a long row and a row
ending in a delimiter. -/
theorem parseCSV_pad_truncate_trailing_witness :
    ((normalizedValues ((parseCSVLine "A,B".toList).map headerKey).length
        (parseCSVLine "1,2,3".toList)).length =
      ((parseCSVLine "A,B".toList).map headerKey).length) ∧
    (parseCSVLine "x,".toList).getLast? = some [] := by
  have h := parseCSV_pad_truncate_trailing "A,B\n1,2,3\nx,".toList
    "A,B".toList "1,2,3".toList ["x,".toList] (by with_unfolding_all decide)
    "1,2,3".toList (by decide)
  exact ⟨h.1, h.2.2.2.2.2 "x,".toList (by decide) (by decide)⟩

/-! ### C10: record key invariants and rightmost-column wins -/

theorem buildRowGo_objGet?_not_mem (nv : List (List Char)) :
    ∀ (hs : List (List Char)) (row : Row) (j : Nat) (k : List Char),
      k ∉ hs → objGet? (buildRowGo nv row j hs) k = objGet? row k := by
  intro hs
  induction hs with
  | nil =>
    intro row j k _
    rfl
  | cons h t ih =>
    intro row j k hk
    rw [buildRowGo, ih _ _ _ (fun hm => hk (List.mem_cons_of_mem _ hm)),
      objGet?_objSet,
      if_neg (fun he : k = h => hk (by rw [he]; exact List.mem_cons_self _ _))]

theorem buildRowGo_objGet?_last (nv : List (List Char)) :
    ∀ (hs : List (List Char)) (row : Row) (j i : Nat) (k : List Char),
      hs.get? i = some k → (∀ i', i < i' → hs.get? i' ≠ some k) →
      objGet? (buildRowGo nv row j hs) k = some (nv.getD (j + i) []) := by
  intro hs
  induction hs with
  | nil =>
    intro row j i k hi
    simp at hi
  | cons h t ih =>
    intro row j i k hi hlater
    cases i with
    | zero =>
      have hk : h = k := by
        simpa using hi
      cases hk
      have hnot : h ∉ t := by
        intro hmem
        obtain ⟨m, hm⟩ := List.mem_iff_get?.mp hmem
        exact hlater (m + 1) (Nat.succ_pos m) (by simpa using hm)
      rw [buildRowGo, buildRowGo_objGet?_not_mem nv t _ _ _ hnot,
        objGet?_objSet, if_pos rfl, Nat.add_zero]
    | succ m =>
      have hm : t.get? m = some k := by
        simpa using hi
      have hlater' : ∀ i', m < i' → t.get? i' ≠ some k := by
        intro i' hmi
        have := hlater (i' + 1) (by omega)
        simpa using this
      rw [buildRowGo, ih _ (j + 1) m k hm hlater']
      have heq : j + 1 + m = j + (m + 1) := by omega
      rw [heq]

set_option synthInstance.maxHeartbeats 400000 in
theorem keys_objSet {α : Type} (r : List (List Char × α)) (h : List Char)
    (v : α) :
    (objSet r h v).map Prod.fst =
      if h ∈ r.map Prod.fst then r.map Prod.fst
      else r.map Prod.fst ++ [h] := by
  induction r with
  | nil =>
    rw [objSet]
    simp
  | cons p t ih =>
    obtain ⟨k', v'⟩ := p
    by_cases h1 : k' = h
    · subst h1
      rw [objSet, if_pos rfl]
      simp
    · have h2 : (h = k') = False := eq_false fun hh => h1 hh.symm
      by_cases hm : h ∈ t.map Prod.fst
      · simp [objSet, h1, hm, h2, ih]
      · simp [objSet, h1, hm, h2, ih]

theorem nodup_keys_buildRowGo (nv : List (List Char)) :
    ∀ (hs : List (List Char)) (row : Row) (j : Nat),
      (row.map Prod.fst).Nodup → ((buildRowGo nv row j hs).map Prod.fst).Nodup := by
  intro hs
  induction hs with
  | nil =>
    intro row j h
    exact h
  | cons h t ih =>
    intro row j hrow
    rw [buildRowGo]
    apply ih
    rw [keys_objSet]
    by_cases hm : h ∈ row.map Prod.fst
    · rw [if_pos hm]
      exact hrow
    · rw [if_neg hm]
      simp [List.nodup_append, hrow, hm]

/-- C10: every record of `parseCSV` has a defined value for exactly the
set of normalized header keys (no undefined and no extra key), its key list
has no duplicates, and when several raw headers normalize to the same key
the stored value is the cleaned cell of the rightmost such column. -/
theorem parseCSV_record_key_invariants (csv : List Char) (r : Row)
    (hr : r ∈ parseCSV csv) :
    (∀ k, (objGet? r k).isSome = true ↔ k ∈ headersOf csv) ∧
    (r.map Prod.fst).Nodup ∧
    ∃ line, line ∈ dataLinesOf csv ∧
      r = buildRow (headersOf csv)
        (normalizedValues (headersOf csv).length (parseCSVLine line)) ∧
      ∀ k i, (headersOf csv).get? i = some k →
        (∀ i', i < i' → (headersOf csv).get? i' ≠ some k) →
        objGet? r k = some (cleanCell ((parseCSVLine line).getD i [])) := by
  rcases hcl : csvLines csv with _ | ⟨l0, _ | ⟨l1, rest⟩⟩
  · rw [parseCSV, hcl] at hr
    simp at hr
  · rw [parseCSV, hcl] at hr
    simp at hr
  · rw [parseCSV, hcl] at hr
    have hhead : headersOf csv = (parseCSVLine l0).map headerKey := by
      rw [headersOf, hcl]
    have hdata : dataLinesOf csv = l1 :: rest := by
      rw [dataLinesOf, hcl]
    obtain ⟨line, hline, hrow⟩ := List.mem_map.mp hr
    refine ⟨?_, ?_, line, hdata ▸ hline, ?_, ?_⟩
    · intro k
      rw [← hrow, hhead, buildRow, buildRowGo_mem_isSome]
      simp [objGet?]
    · rw [← hrow, buildRow]
      exact nodup_keys_buildRowGo _ _ [] 0 (by simp)
    · rw [← hrow, hhead]
    · intro k i hi hlater
      have hlen : i < (headersOf csv).length := by
        by_contra hcon
        rw [List.get?_eq_none.mpr (by omega)] at hi
        cases hi
      rw [← hrow]
      rw [hhead] at hi hlater hlen
      rw [buildRow, buildRowGo_objGet?_last _ _ _ 0 i k hi hlater,
        Nat.zero_add, normalizedValues_getD _ _ i hlen]

/-- A blob whose first and second headers normalize to the same key `a`. -/
def csvDupHeaders : List Char := "A,a,B\n1,2,3".toList

/-- C10 witness: on a blob with duplicate normalized headers the first
record's key set is exactly the normalized header keys, and the duplicate
key stores the rightmost column's value. -/
theorem parseCSV_record_key_invariants_witness :
    (objGet? ((parseCSV csvDupHeaders).getD 0 []) "a".toList).isSome = true ↔
      "a".toList ∈ headersOf csvDupHeaders :=
  (parseCSV_record_key_invariants csvDupHeaders
    ((parseCSV csvDupHeaders).getD 0 []) (by decide)).1 "a".toList

/-! ### C3: serialize/parse round trip -/

theorem parseQuoted_escape (f : List Char) :
    ∀ (val tail : List Char), tail.head? ≠ some '"' →
      parseQuoted (escapeQuotes f ++ '"' :: tail) val = (val ++ f, tail) := by
  induction f with
  | nil =>
    intro val tail htail
    cases tail with
    | nil => simp [escapeQuotes, parseQuoted]
    | cons c r =>
      have hc : c ≠ '"' := by
        intro he
        exact htail (by simp [he])
      rw [escapeQuotes, List.nil_append, parseQuoted]
      cases hc' : c
      all_goals
        simp_all [parseQuoted]
  | cons c f' ih =>
    intro val tail htail
    by_cases hc : c = '"'
    · subst hc
      rw [escapeQuotes, if_pos rfl]
      show parseQuoted ('"' :: '"' :: (escapeQuotes f' ++ '"' :: tail)) val =
        (val ++ '"' :: f', tail)
      rw [parseQuoted]
      rw [ih (val ++ ['"']) tail htail]
      simp
    · rw [escapeQuotes, if_neg hc]
      show parseQuoted (c :: (escapeQuotes f' ++ '"' :: tail)) val =
        (val ++ c :: f', tail)
      rw [parseQuoted]
      · rw [ih (val ++ [c]) tail htail]
        simp
      · exact fun h => hc h

theorem serializeLine_ends_quote :
    ∀ fields : List (List Char), fields ≠ [] →
      ∃ l, serializeLine fields = l ++ ['"'] := by
  intro fields
  induction fields with
  | nil =>
    intro h
    exact absurd rfl h
  | cons f rest ih =>
    intro _
    cases rest with
    | nil =>
      exact ⟨'"' :: escapeQuotes f, by simp [serializeLine, serializeField]⟩
    | cons g t =>
      obtain ⟨l, hl⟩ := ih (List.cons_ne_nil g t)
      refine ⟨serializeField f ++ ',' :: l, ?_⟩
      rw [serializeLine]
      · rw [hl]
        simp
      · exact List.cons_ne_nil g t

theorem parseLineAux_nil_ne (m : Nat) (out : List (List Char)) (hm : 0 < m)
    (h : out ≠ []) : parseLineAux false m [] out = out := by
  cases m with
  | zero => omega
  | succ n =>
    rw [parseLineAux]
    simp [h]

theorem parseLineAux_serialize :
    ∀ (fields : List (List Char)) (out : List (List Char)) (fuel : Nat),
      fields ≠ [] → (∀ f ∈ fields, jsTrim f = f) →
      (serializeLine fields).length < fuel →
      parseLineAux false fuel (serializeLine fields) out = out ++ fields := by
  intro fields
  induction fields with
  | nil =>
    intro out fuel h
    exact absurd rfl h
  | cons f rest ih =>
    intro out fuel _ htrim hfuel
    cases rest with
    | nil =>
      have hser : serializeLine [f] = '"' :: (escapeQuotes f ++ '"' :: []) := by
        simp [serializeLine, serializeField]
      rw [hser] at hfuel ⊢
      cases fuel with
      | zero => omega
      | succ n =>
        rw [parseLineAux, if_pos rfl,
          parseQuoted_escape f [] [] (by simp), List.nil_append]
        have hf : jsTrim f = f := htrim f (by simp)
        rw [hf]
        show parseLineAux false n [] (out ++ [f]) = out ++ [f]
        apply parseLineAux_nil_ne n (out ++ [f]) (by
          simp only [List.length_cons, List.length_append] at hfuel
          omega) (by simp)
    | cons g t =>
      have hser : serializeLine (f :: g :: t) =
          '"' :: (escapeQuotes f ++ '"' :: (',' :: serializeLine (g :: t))) := by
        rw [serializeLine]
        · rw [serializeField]
          simp
        · exact List.cons_ne_nil g t
      rw [hser] at hfuel ⊢
      cases fuel with
      | zero => omega
      | succ n =>
        rw [parseLineAux, if_pos rfl,
          parseQuoted_escape f [] (',' :: serializeLine (g :: t)) (by simp),
          List.nil_append]
        have hf : jsTrim f = f := htrim f (by simp)
        rw [hf]
        show parseLineAux false n (serializeLine (g :: t))
          (out ++ [f]) = out ++ f :: g :: t
        rw [ih (out ++ [f]) n (List.cons_ne_nil g t)
            (fun x hx => htrim x (List.mem_cons_of_mem _ hx))
            (by
              simp only [List.length_cons, List.length_append] at hfuel ⊢
              omega)]
        simp

/-- C3 (counterexample): serializing the single field `"a "` with the
stated quoting rules and re-parsing it with `parseCSVLine` trims the
trailing space, so the round trip is not the identity on values with
leading/trailing whitespace. -/
theorem roundTrip_trim_counterexample :
    parseCSVLine (serializeLine ["a ".toList]) ≠ ["a ".toList] := by
  decide

/-- C3 (amended): for every non-empty sequence of field values each free of
leading/trailing whitespace (the parser trims every field value, and an
empty sequence parses to `[""]`), serializing with comma delimiter,
double-quote wrapping and doubled-quote escaping and re-parsing with
`parseCSVLine` returns exactly the original values — including values
containing commas and quotes. -/
theorem roundTrip_trimmed_fields (fields : List (List Char))
    (hne : fields ≠ []) (htrim : ∀ f ∈ fields, jsTrim f = f) :
    parseCSVLine (serializeLine fields) = fields := by
  obtain ⟨l, hl⟩ := serializeLine_ends_quote fields hne
  have hec : ((serializeLine fields).getLast? == some ',') = false := by
    rw [hl]
    simp [List.getLast?_append]
  rw [parseCSVLine, hec]
  have h := parseLineAux_serialize fields [] ((serializeLine fields).length + 1)
    hne htrim (by omega)
  simpa using h

/-- C3 witness: a concrete round trip through fields containing a comma,
a quote and an empty value. -/
theorem roundTrip_trimmed_fields_witness :
    parseCSVLine (serializeLine ["a,b".toList, "c\"d".toList, [], "e".toList]) =
      ["a,b".toList, "c\"d".toList, [], "e".toList] :=
  roundTrip_trimmed_fields ["a,b".toList, "c\"d".toList, [], "e".toList]
    (by decide) (by decide)

/-! ### C4: header canonicalization -/

namespace CSVSpec

/-- Modelled from the spec: two raw header strings "differ only in letter
case, internal whitespace, or underscore placement" exactly when their
case-folded, whitespace/underscore-erased residues agree; `canonHeader`
computes that residue. -/
def canonHeader (s : List Char) : List Char :=
  (s.map Char.toLower).filter fun c => !(isWSU c)

end CSVSpec

theorem char_toNat_ofNat (n : Nat) (h : Char.isValidCharNat n) :
    (Char.ofNat n).toNat = n := by
  unfold Char.ofNat
  rw [dif_pos h]
  rfl

theorem toLower_toNat_of_upper (c : Char) (h : 65 ≤ c.toNat ∧ c.toNat ≤ 90) :
    (Char.toLower c).toNat = c.toNat + 32 := by
  rw [Char.toLower, if_pos h]
  exact char_toNat_ofNat (c.toNat + 32) (Or.inl (by omega))

theorem isWSU_toLower (c : Char) : isWSU (Char.toLower c) = isWSU c := by
  by_cases h : 65 ≤ c.toNat ∧ c.toNat ≤ 90
  · have hl := toLower_toNat_of_upper c h
    have hlow : 97 ≤ (Char.toLower c).toNat ∧ (Char.toLower c).toNat ≤ 122 := by
      omega
    have hne : ∀ d : Char, d.toNat < 97 ∨ 122 < d.toNat →
        (Char.toLower c = d) = False := by
      intro d hd
      apply eq_false
      intro he
      rw [he] at hlow
      omega
    have hnc : ∀ d : Char, d.toNat < 65 ∨ 90 < d.toNat → (c = d) = False := by
      intro d hd
      apply eq_false
      intro he
      rw [he] at h
      omega
    simp only [isWSU, isWS,
      hne ' ' (Or.inl (by decide)), hne '\t' (Or.inl (by decide)),
      hne '\n' (Or.inl (by decide)), hne '\x0b' (Or.inl (by decide)),
      hne '\x0c' (Or.inl (by decide)), hne '\r' (Or.inl (by decide)),
      hne '\u00A0' (Or.inr (by decide)), hne '\uFEFF' (Or.inr (by decide)),
      hne '_' (Or.inl (by decide)),
      hnc ' ' (Or.inl (by decide)), hnc '\t' (Or.inl (by decide)),
      hnc '\n' (Or.inl (by decide)), hnc '\x0b' (Or.inl (by decide)),
      hnc '\x0c' (Or.inl (by decide)), hnc '\r' (Or.inl (by decide)),
      hnc '\u00A0' (Or.inr (by decide)), hnc '\uFEFF' (Or.inr (by decide)),
      hnc '_' (Or.inr (by decide))]
  · rw [Char.toLower, if_neg h]

theorem isWS_toLower (c : Char) : isWS (Char.toLower c) = isWS c := by
  have h := isWSU_toLower c
  rw [isWSU, isWSU] at h
  by_cases hu : c = '_'
  · subst hu
    rfl
  · by_cases h65 : 65 ≤ c.toNat ∧ c.toNat ≤ 90
    · have hl := toLower_toNat_of_upper c h65
      have hne : (Char.toLower c = '_') = False := by
        apply eq_false
        intro he
        have h95 : (Char.toLower c).toNat = 95 := by
          rw [he]
          decide
        omega
      have hne2 : (c = '_') = False := eq_false hu
      simp only [hne, hne2, decide_False, Bool.or_false] at h
      exact h
    · rw [Char.toLower, if_neg h65]

theorem filter_dropWhile {α : Type} (q p : α → Bool)
    (h : ∀ c, p c = true → q c = false) :
    ∀ l : List α, (l.dropWhile p).filter q = l.filter q := by
  intro l
  induction l with
  | nil => rfl
  | cons c t ih =>
    by_cases hp : p c = true
    · rw [List.dropWhile_cons_of_pos hp, ih, List.filter_cons_of_neg]
      simp [h c hp]
    · rw [List.dropWhile_cons_of_neg (by simpa using hp)]

theorem filter_jsTrim (q : Char → Bool) (h : ∀ c, isWS c = true → q c = false)
    (l : List Char) : (jsTrim l).filter q = l.filter q := by
  rw [jsTrim, List.filter_reverse, filter_dropWhile q isWS h,
    List.filter_reverse, filter_dropWhile q isWS h, List.reverse_reverse]

theorem map_toLower_jsTrim (l : List Char) :
    (jsTrim l).map Char.toLower = jsTrim (l.map Char.toLower) := by
  have hfun : (isWS ∘ Char.toLower) = isWS := by
    funext c
    exact isWS_toLower c
  rw [jsTrim, jsTrim]
  conv_rhs => rw [List.dropWhile_map, hfun, ← List.map_reverse,
    List.dropWhile_map, hfun, ← List.map_reverse]

theorem stripLeadQuote_no_quote (l : List Char) (h : '"' ∉ l) :
    stripLeadQuote l = l := by
  unfold stripLeadQuote
  split
  · exact absurd (List.mem_cons_self _ _) h
  · rfl

theorem stripWrapQuotes_no_quote (l : List Char) (h : '"' ∉ l) :
    stripWrapQuotes l = l := by
  rw [stripWrapQuotes, stripLeadQuote_no_quote l h, if_neg]
  intro hlast
  exact h (List.mem_of_getLast?_eq_some hlast)

theorem mem_jsTrim {c : Char} {l : List Char} (h : c ∈ jsTrim l) : c ∈ l := by
  rw [jsTrim] at h
  rw [List.mem_reverse] at h
  have h1 := (List.dropWhile_sublist (l := (l.dropWhile isWS).reverse) isWS).subset h
  rw [List.mem_reverse] at h1
  exact (List.dropWhile_sublist isWS).subset h1

theorem normalizeHeader_eq_canon (s : List Char) (h : '"' ∉ s) :
    normalizeHeader s = canonHeader s := by
  rw [normalizeHeader,
    stripWrapQuotes_no_quote (jsTrim s) (fun hm => h (mem_jsTrim hm)),
    map_toLower_jsTrim,
    filter_jsTrim _ (fun c hc => by simp [isWSU, hc]) (s.map Char.toLower)]
  rfl

/-- C4 (counterexample): the raw headers `a_"` and `a"_` differ only in the
placement of the underscore, yet `normalizeHeader` maps them to different
keys (`a` vs `a"`), because the wrapping-quote strip fires only when the
quote is the last character after trimming. -/
theorem normalizeHeader_underscore_quote_counterexample :
    canonHeader "a_\"".toList = canonHeader "a\"_".toList ∧
      normalizeHeader "a_\"".toList ≠ normalizeHeader "a\"_".toList := by
  decide

/-- C4 (amended): for raw headers containing no double-quote character,
agreeing up to letter case, whitespace and underscore placement implies the
same canonical key; a header whose normalized form is empty falls back to
the (already trimmed) parsed header field, so a header key is never empty
when that field is non-blank.  (With quote characters present, quote
stripping can interact with underscore/whitespace placement, see the
counterexample.) -/
theorem normalizeHeader_canonical_and_fallback :
    (∀ s t : List Char, '"' ∉ s → '"' ∉ t → canonHeader s = canonHeader t →
      normalizeHeader s = normalizeHeader t) ∧
    (∀ h : List Char, normalizeHeader (stripLeadBOM h) = [] → headerKey h = h) ∧
    (∀ h : List Char, h ≠ [] → headerKey h ≠ []) := by
  refine ⟨?_, ?_, ?_⟩
  · intro s t hs ht hc
    rw [normalizeHeader_eq_canon s hs, normalizeHeader_eq_canon t ht, hc]
  · intro h hn
    rw [headerKey, hn]
    rfl
  · intro h hne
    rw [headerKey]
    by_cases hn : (normalizeHeader (stripLeadBOM h)).isEmpty
    · rw [if_pos hn]
      exact hne
    · rw [if_neg hn]
      simpa using hn

/-- C4 witness: `Deal Owner`, `deal_owner` and `DEALOWNER` canonicalize
identically, and a non-blank header never yields an empty key. -/
theorem normalizeHeader_canonical_and_fallback_witness :
    normalizeHeader "Deal Owner".toList = normalizeHeader "deal_owner".toList ∧
    normalizeHeader "deal_owner".toList = normalizeHeader "DEALOWNER".toList ∧
    headerKey "%".toList ≠ [] :=
  ⟨normalizeHeader_canonical_and_fallback.1 "Deal Owner".toList
      "deal_owner".toList (by decide) (by decide) (by decide),
   normalizeHeader_canonical_and_fallback.1 "deal_owner".toList
      "DEALOWNER".toList (by decide) (by decide) (by decide),
   normalizeHeader_canonical_and_fallback.2.2 "%".toList (by decide)⟩

/-! ### C9: the two parseCSVLine variants -/

theorem scanUnquoted_snd_shape :
    ∀ (l v : List Char), (scanUnquoted l v).2 = [] ∨
      ∃ r, (scanUnquoted l v).2 = ',' :: r := by
  intro l
  induction l with
  | nil =>
    intro v
    exact Or.inl rfl
  | cons c rest ih =>
    intro v
    rw [scanUnquoted]
    by_cases hc : c = ','
    · rw [if_pos hc]
      exact Or.inr ⟨rest, by rw [hc]⟩
    · rw [if_neg hc]
      exact ih (v ++ [c])

theorem scanUnquoted_snd_mem :
    ∀ (l v : List Char) (c' : Char), c' ∈ (scanUnquoted l v).2 → c' ∈ l := by
  intro l
  induction l with
  | nil =>
    intro v c' h
    rw [scanUnquoted] at h
    exact absurd h (List.not_mem_nil c')
  | cons c rest ih =>
    intro v c' h
    rw [scanUnquoted] at h
    by_cases hc : c = ','
    · rw [if_pos hc] at h
      exact h
    · rw [if_neg hc] at h
      exact List.mem_cons_of_mem _ (ih (v ++ [c]) c' h)

theorem skipComma_eq_dropOne (l : List Char)
    (h : l = [] ∨ ∃ r, l = ',' :: r) : skipComma l = GSLB.dropOne l := by
  rcases h with h | ⟨r, h⟩ <;> subst h <;> rfl

theorem skipComma_mem (l : List Char) (c : Char) (h : c ∈ skipComma l) :
    c ∈ l := by
  cases l with
  | nil => exact h
  | cons a r =>
    by_cases ha : a = ','
    · subst ha
      exact List.mem_cons_of_mem _ h
    · have he : skipComma (a :: r) = a :: r := by
        unfold skipComma
        split
        · next heq =>
          rw [List.cons.injEq] at heq
          exact absurd heq.1 ha
        · rfl
      rw [he] at h
      exact h

theorem parsers_agree_aux :
    ∀ (fuel : Nat) (rem : List Char) (out : List (List Char)),
      rem.length < fuel → '"' ∉ rem → (rem = [] → out ≠ []) →
      parseLineAux false fuel rem out = GSLB.parseLineAux fuel rem out := by
  intro fuel
  induction fuel with
  | zero =>
    intro rem out h
    omega
  | succ f ih =>
    intro rem out hfuel hq hout
    cases rem with
    | nil =>
      rw [parseLineAux, GSLB.parseLineAux]
      simp [hout rfl]
    | cons c rest =>
      have hc : ¬(c = '"') := fun he => hq (he ▸ List.mem_cons_self _ _)
      rw [parseLineAux, GSLB.parseLineAux, if_neg hc, if_neg hc,
        skipComma_eq_dropOne _ (scanUnquoted_snd_shape (c :: rest) []),
        GSLB.dropOne]
      apply ih
      · have h1 := scan_skip_length_lt c rest
        rw [skipComma_eq_dropOne _ (scanUnquoted_snd_shape (c :: rest) []),
          GSLB.dropOne] at h1
        simp only [List.length_cons] at hfuel h1 ⊢
        omega
      · intro hmem
        have h1 : '"' ∈ skipComma (scanUnquoted (c :: rest) []).2 := by
          rw [skipComma_eq_dropOne _ (scanUnquoted_snd_shape (c :: rest) []),
            GSLB.dropOne]
          exact hmem
        exact hq (scanUnquoted_snd_mem (c :: rest) [] '"'
          (skipComma_mem _ '"' h1))
      · intro _
        simp

/-- C9 (counterexample): on the line `a,` (ending in a delimiter) the two
`parseCSVLine` implementations disagree: the `googleSheetsLoader.ts` one
returns `["a", ""]`, the unnamed-file variant drops the trailing empty
field and returns `["a"]`. -/
theorem parseCSVLine_variants_differ :
    parseCSVLine "a,".toList ≠ GSLB.parseCSVLine "a,".toList := by
  decide

/-- The two variants also disagree on every quoted field followed by a
delimiter: the variant parser does not skip the comma after a closing
quote and emits a spurious empty field. -/
theorem parseCSVLine_variants_differ_quoted :
    parseCSVLine "\"a\",b".toList ≠ GSLB.parseCSVLine "\"a\",b".toList := by
  decide

/-- C9 (amended): the two `parseCSVLine` implementations agree on every
line that contains no double-quote character, is non-empty, and does not
end in a delimiter.  They disagree on the empty line (`[""]` vs `[]`), on
lines ending in a delimiter (the variant drops the trailing empty field),
and on quoted fields followed by a delimiter (the variant inserts a
spurious empty field), so they are not extensionally equal. -/
theorem parseCSVLine_variants_agree_quoteFree (l : List Char)
    (hq : '"' ∉ l) (hne : l ≠ []) (hlast : l.getLast? ≠ some ',') :
    parseCSVLine l = GSLB.parseCSVLine l := by
  have hec : (l.getLast? == some ',') = false := by
    cases h : l.getLast? with
    | none => rfl
    | some c =>
      rw [h] at hlast
      simpa using fun he => hlast (by rw [he])
  rw [parseCSVLine, GSLB.parseCSVLine, hec]
  exact parsers_agree_aux (l.length + 1) l [] (by omega) hq
    (fun h => absurd h hne)

/-- C9 witness: both parsers agree on a concrete quote-free line. -/
theorem parseCSVLine_variants_agree_quoteFree_witness :
    parseCSVLine "x, y ,z".toList = GSLB.parseCSVLine "x, y ,z".toList :=
  parseCSVLine_variants_agree_quoteFree "x, y ,z".toList (by decide)
    (by decide) (by decide)

end SalesDashboard
